import Mathlib

/-!
Verification of TamScraper (src/TamScraper.py) against its specification.

The script is a single-pass batch pipeline: it scans game folders, parses a
LaunchBox metadata XML into a lookup keyed by ROM filename, locates artwork by
a filename heuristic, normalizes images (cover / fanart / marquee), and emits a
simplified gamelist.  The development below shallowly embeds the pure content
of each operation: filesystem state (directory listings, `os.walk` output,
`os.path.exists`) is passed explicitly, Python strings become Lean `String`s,
image pixel geometry becomes arithmetic over `ℕ` and `ℚ`, and the
try/except blocks of the image writers become explicit `Except` outcomes.
-/

namespace TamScraper

/-! ### String helpers (models of the Python string operations used) -/

/-- Model of Python `str.lower()` restricted to ASCII, which is all the script
compares (file extensions such as `.JPG`). -/
def lower_ascii (s : String) : String :=
  String.mk (s.data.map Char.toLower)

/-- Model of `str.replace("-", "")`: removes every dash. -/
def strip_dashes (s : String) : String :=
  String.mk (s.data.filter (fun c => c ≠ '-'))

/-- Model of the slice `s[:10]`: the first ten characters. -/
def take10 (s : String) : String :=
  String.mk (s.data.take 10)

/-- Model of `str.replace('_', ' ')`: every underscore becomes a space. -/
def underscores_to_spaces (s : String) : String :=
  String.mk (s.data.map (fun c => if c = '_' then ' ' else c))

/-- Index of the last dot in a character list, if any. -/
def lastDot : List Char → Option Nat
  | [] => none
  | c :: cs =>
    match lastDot cs with
    | some i => some (i + 1)
    | none => if c = '.' then some 0 else none

/-- Model of Python `os.path.splitext` on a bare file name (no separators):
split at the last dot, except that a name consisting only of leading dots
before that dot (e.g. `.bashrc`) is not split. -/
def splitext (p : String) : String × String :=
  let cs := p.data
  match lastDot cs with
  | none => (p, "")
  | some i =>
    if (cs.take i).all (fun c => c = '.') then (p, "")
    else (String.mk (cs.take i), String.mk (cs.drop i))

/-- The characters replaced by `sanitize_lb_title`
(`< > : " / \ | ? * ' backtick`, written via code points where the literal
would be awkward). -/
def lb_bad_chars : List Char :=
  ['<', '>', ':', Char.ofNat 34, '/', Char.ofNat 92, '|', '?', '*',
    Char.ofNat 39, Char.ofNat 96]

/-- Character-list worker for `sanitize_lb_title`. -/
def sanitize_chars : List Char → List Char
  | [] => []
  | c :: cs => (if c ∈ lb_bad_chars then '_' else c) :: sanitize_chars cs

/-- Model of `sanitize_lb_title(title)`.  The Python argument may be `None`
(the title can come from an empty `Title` element), hence `Option String`;
`if not title: return ""` maps both `None` and `""` to `""`, otherwise each
character of the class is replaced by an underscore (`re.sub`). -/
def sanitize_lb_title : Option String → String
  | none => ""
  | some s => if s = "" then "" else String.mk (sanitize_chars s.data)

/-- Model of `os.path.basename` (POSIX): the part after the last slash. -/
def basename_chars : List Char → List Char → List Char
  | [], acc => acc.reverse
  | c :: cs, acc => if c = '/' then basename_chars cs [] else basename_chars cs (c :: acc)

/-- `os.path.basename` on a string. -/
def basename (p : String) : String :=
  String.mk (basename_chars p.data [])

/-! ### Artwork Locator (`find_image`) -/

/-- The accepted image extensions (`valid_exts` in the source). -/
def valid_exts : List String := [".jpg", ".png", ".jpeg", ".gif"]

/-- The ordered candidate stems built by `find_image`. -/
def candidates (title_sanitized rom_filename_no_ext : String) : List String :=
  [title_sanitized ++ "-01", title_sanitized,
    rom_filename_no_ext ++ "-01", underscores_to_spaces title_sanitized]

/-- Explicit filesystem state: `os.path.exists` and the `os.walk` output
(one `(root, files)` pair per visited directory, in traversal order). -/
structure FS where
  exists_path : String → Bool
  walk : String → List (String × List String)

/-- Inner loop of `find_image` over the files of one directory: first file
whose extension (lower-cased) is accepted and whose stem is a candidate. -/
def find_in_files (root : String) (cands : List String) : List String → Option String
  | [] => none
  | file :: rest =>
    let ne := splitext file
    if lower_ascii ne.2 ∈ valid_exts ∧ ne.1 ∈ cands then some (root ++ "/" ++ file)
    else find_in_files root cands rest

/-- Outer loop of `find_image` over the `os.walk` listing. -/
def find_walk (cands : List String) : List (String × List String) → Option String
  | [] => none
  | d :: rest =>
    match find_in_files d.1 cands d.2 with
    | some p => some p
    | none => find_walk cands rest

/-- Model of `find_image(base_dir, type_folder, title_sanitized,
rom_filename_no_ext)`: `os.path.join` is `/`-concatenation, and the walk is
taken from the explicit filesystem. -/
def find_image (fs : FS) (base_dir type_folder title_sanitized rom_filename_no_ext : String) :
    Option String :=
  let search_root := base_dir ++ "/" ++ type_folder
  if fs.exists_path search_root then
    find_walk (candidates title_sanitized rom_filename_no_ext) (fs.walk search_root)
  else none

/-! ### Image Normalizer: pixel geometry

The script calls Pillow.  `Image.thumbnail` and `ImageOps.fit` are embedded
below from Pillow's own implementation (current Pillow, which the script's
`Image.Resampling` feature test targets): `thumbnail` computes an
aspect-preserving bounded size and never enlarges; `fit` computes a crop box
covering the target ratio and then resizes to exactly the target size. -/

/-- Configuration constants of the script. -/
def TARGET_RES_FANART : ℕ × ℕ := (1280, 720)

def TARGET_RES_COVER : ℕ × ℕ := (512, 512)

def TARGET_RES_LOGO : ℕ × ℕ := (512, 256)

def IMG_QUALITY : ℕ := 80

/-- Pillow's `round_aspect(number, key)`:
`max(min(math.floor(number), math.ceil(number), key=key), 1)`
(Python's `min` keeps the first argument on a key tie). -/
def round_aspect (number : ℚ) (key : ℤ → ℚ) : ℤ :=
  max (if key ⌊number⌋ ≤ key ⌈number⌉ then ⌊number⌋ else ⌈number⌉) 1

/-- Pillow's `Image.thumbnail(size)` output dimensions for an image of
dimensions `wh`: unchanged when the image already fits the box, otherwise one
box dimension is kept and the other is the rounded aspect-preserving value. -/
def thumbnail_size (size wh : ℕ × ℕ) : ℕ × ℕ :=
  if wh.1 ≤ size.1 ∧ wh.2 ≤ size.2 then wh
  else if (wh.1 : ℚ) / (wh.2 : ℚ) ≤ (size.1 : ℚ) / (size.2 : ℚ) then
    ((round_aspect ((size.2 : ℚ) * ((wh.1 : ℚ) / (wh.2 : ℚ)))
        (fun n => |(wh.1 : ℚ) / (wh.2 : ℚ) - (n : ℚ) / (size.2 : ℚ)|)).toNat,
      size.2)
  else
    (size.1,
      (round_aspect ((size.1 : ℚ) / ((wh.1 : ℚ) / (wh.2 : ℚ)))
        (fun n => if n = 0 then 0 else |(wh.1 : ℚ) / (wh.2 : ℚ) - (size.1 : ℚ) / (n : ℚ)|)).toNat)

/-- Crop box computed by `ImageOps.fit` (floats become exact rationals). -/
structure CropBox where
  left : ℚ
  top : ℚ
  right : ℚ
  bottom : ℚ
deriving Repr, DecidableEq

/-- Model of the crop-box computation of
`ImageOps.fit(image, size, method, bleed=0.0, centering=(0.5, 0.5))`:
compare the live ratio to the output ratio, crop the larger dimension,
centering at 50 percent. -/
def fit_crop_box (w h : ℕ) (size : ℕ × ℕ) : CropBox :=
  let live_w : ℚ := w
  let live_h : ℚ := h
  let live_ratio : ℚ := live_w / live_h
  let output_ratio : ℚ := (size.1 : ℚ) / (size.2 : ℚ)
  let cwch : ℚ × ℚ :=
    if live_ratio = output_ratio then (live_w, live_h)
    else if output_ratio ≤ live_ratio then (output_ratio * live_h, live_h)
    else (live_w, live_w / output_ratio)
  let crop_left := (live_w - cwch.1) * (1 / 2)
  let crop_top := (live_h - cwch.2) * (1 / 2)
  ⟨crop_left, crop_top, crop_left + cwch.1, crop_top + cwch.2⟩

/-- PIL `Image.resize(size, ..., box=crop)` yields an image of exactly the
requested size; the crop box only selects the source region. -/
def image_resize (size : ℕ × ℕ) (_box : CropBox) : ℕ × ℕ := size

/-- The observable result of one `img.save(...)` call: final pixel dimensions
and the encoding parameters passed to Pillow. -/
structure SavedImage where
  width : ℕ
  height : ℕ
  format : String
  quality : Option ℕ
  optimize : Bool
deriving Repr, DecidableEq

/-- Pixel-geometry model of `process_image_cover` on an (orientation
normalized, RGB converted) input of dimensions `w × h`:
`thumbnail(TARGET_RES_COVER)` then `save(..., "JPEG", quality=80,
optimize=True)`. -/
def process_image_cover (w h : ℕ) : SavedImage :=
  let out := thumbnail_size TARGET_RES_COVER (w, h)
  { width := out.1, height := out.2, format := "JPEG", quality := some IMG_QUALITY,
    optimize := true }

/-- Pixel-geometry model of `process_image_fanart` on an input of dimensions
`w × h`: `ImageOps.fit(img, TARGET_RES_FANART, centering=(0.5, 0.5))` — a crop
box plus a resize to exactly the target — then `save(..., "JPEG", quality=80,
optimize=True)`.  The crop box is returned so its geometry can be inspected. -/
def process_image_fanart (w h : ℕ) : SavedImage × CropBox :=
  let box := fit_crop_box w h TARGET_RES_FANART
  let out := image_resize TARGET_RES_FANART box
  ({ width := out.1, height := out.2, format := "JPEG", quality := some IMG_QUALITY,
     optimize := true }, box)

/-- Pixel-geometry model of `process_image_marquee`:
`thumbnail(TARGET_RES_LOGO)` then `save(..., "PNG", optimize=True)`
(no quality parameter, no RGB conversion, no orientation pass). -/
def process_image_marquee (w h : ℕ) : SavedImage :=
  let out := thumbnail_size TARGET_RES_LOGO (w, h)
  { width := out.1, height := out.2, format := "PNG", quality := none, optimize := true }

/-! ### Metadata Loader and Game Enumerator (`process_directory`) -/

/-- A `Game` element of the LaunchBox XML as the script accesses it.  Each
child element is `none` when absent, `some none` when present with no text
(ElementTree yields `text = None` for an empty element), and `some (some s)`
when present with text `s`. -/
structure GameNode where
  title : Option (Option String)
  notes : Option (Option String)
  developer : Option (Option String)
  publisher : Option (Option String)
  genre : Option (Option String)
  maxPlayers : Option (Option String)
  releaseDate : Option (Option String)
  applicationPath : Option (Option String)
deriving Repr, DecidableEq

/-- The key under which a `Game` element is stored into `rom_map`
(`if app_path is not None and app_path.text:
rom_map[os.path.basename(app_path.text)] = game`), or `none` when the element
is skipped. -/
def rom_key (g : GameNode) : Option String :=
  match g.applicationPath with
  | some (some s) => if s = "" then none else some (basename s)
  | _ => none

/-- One dict assignment `rom_map[key] = game` (skipped for games without a
usable `ApplicationPath`), as an update of the lookup function. -/
def rom_map_step (m : String → Option GameNode) (g : GameNode) : String → Option GameNode :=
  match rom_key g with
  | some key => fun q => if q = key then some g else m q
  | none => m

/-- Model of the `rom_map` Python dict built by `process_directory`: dict
assignment in document order, a later entry overwriting an earlier one with
the same key; lookup of an absent key is `none`. -/
def build_rom_map (games : List GameNode) : String → Option GameNode :=
  games.foldl rom_map_step (fun _ => none)

/-- The ROM extension allow-list (`game_exts` in the source). -/
def game_exts : List String :=
  [".chd", ".n64", ".z64", ".v64", ".gdi", ".cdi", ".iso", ".cue", ".bin", ".img",
    ".mdf", ".pbp"]

/-- The per-file filter of the ROM loop: `ext.lower() in game_exts`. -/
def is_game_file (f : String) : Bool :=
  game_exts.contains (lower_ascii (splitext f).2)

/-- Outcome protocol of the three `process_image_*` functions: the whole body
runs in a `try`, any raised exception is caught (and logged) and turns into
`False`; success returns `True`.  `attempt` is the outcome of the body. -/
def image_try (attempt : Except String Unit) : Bool :=
  match attempt with
  | .ok _ => true
  | .error _ => false

/-- `title_text`: starts as the ROM base filename and is replaced by the
`Title` element's text (which may be `None`) whenever that element exists. -/
def resolved_title (t : Option (Option String)) (name : String) : Option String :=
  match t with
  | none => some name
  | some tt => tt

/-- The `desc` output field: emitted whenever the `Notes` element exists
(`if desc is not None: ...`), carrying its text verbatim — even when the text
is empty. -/
def desc_field (v : Option (Option String)) : List (String × Option String) :=
  match v with
  | none => []
  | some t => [("desc", t)]

/-- One iteration of the `for tag in ["Developer", "Publisher", "Genre",
"MaxPlayers"]` loop: the lower-cased output field is emitted iff the element
exists and its text is non-empty (`node is not None and node.text`). -/
def tag_field (tag : String) (v : Option (Option String)) : List (String × Option String) :=
  match v with
  | some (some s) => if s = "" then [] else [(tag, some s)]
  | _ => []

/-- The `releasedate` output field: emitted iff the `ReleaseDate` element
exists, its text is truthy, and has length at least 10; the value is the
first ten characters with dashes removed, followed by `"T000000"`. -/
def releasedate_field (v : Option (Option String)) : List (String × Option String) :=
  match v with
  | some (some s) =>
    if s = "" then []
    else if 10 ≤ s.length then
      [("releasedate", some (strip_dashes (take10 s) ++ "T000000"))]
    else []
  | _ => []

/-- The metadata fields of one matched game, in the output order of the
source: desc, developer, publisher, genre, maxplayers, releasedate. -/
def meta_fields (node : GameNode) : List (String × Option String) :=
  desc_field node.notes ++ tag_field "developer" node.developer
    ++ tag_field "publisher" node.publisher ++ tag_field "genre" node.genre
    ++ tag_field "maxplayers" node.maxPlayers ++ releasedate_field node.releaseDate

/-- One artwork field: only when the locator found a source (`if src:`) is the
image processed, and only when processing succeeded is the field emitted. -/
def image_block (tag : String) (src : Option String) (ok : String → Bool) (dest_rel : String) :
    List (String × Option String) :=
  match src with
  | some s => if ok s then [(tag, some dest_rel)] else []
  | none => []

/-- The three artwork fields (cover, fanart, marquee) of one matched game:
locate under `Front` / `Screenshot` / `Clear Logo`, process to the fixed
destination, emit the relative destination path on success. -/
def art_fields (dir name rom_base sanitized : String) (fs : FS)
    (attemptC attemptF attemptM : String → String → Except String Unit) :
    List (String × Option String) :=
  image_block "image" (find_image fs dir "Front" sanitized name)
      (fun s => image_try (attemptC s (dir ++ "/images/covers/" ++ rom_base ++ ".jpg")))
      ("./images/covers/" ++ rom_base ++ ".jpg")
    ++ image_block "fanart" (find_image fs dir "Screenshot" sanitized name)
      (fun s => image_try (attemptF s (dir ++ "/images/fanart/" ++ rom_base ++ ".jpg")))
      ("./images/fanart/" ++ rom_base ++ ".jpg")
    ++ image_block "marquee" (find_image fs dir "Clear Logo" sanitized name)
      (fun s => image_try (attemptM s (dir ++ "/images/marquees/" ++ rom_base ++ ".png")))
      ("./images/marquees/" ++ rom_base ++ ".png")

/-- The body of the per-ROM loop of `process_directory` for one file `f` that
passed the extension filter: the produced `game` element as an ordered list of
`(tag, text)` children.  `dir` is the absolute folder path; the `attempt`
oracles are the outcomes of the try blocks of the three image writers. -/
def process_game (dir f : String) (rom_map : String → Option GameNode) (fs : FS)
    (attemptC attemptF attemptM : String → String → Except String Unit) :
    List (String × Option String) :=
  let name := (splitext f).1
  match rom_map f with
  | none => [("path", some ("./" ++ f)), ("name", some name)]
  | some node =>
    let title_text := resolved_title node.title name
    [("path", some ("./" ++ f)), ("name", title_text)]
      ++ meta_fields node
      ++ art_fields dir name name (sanitize_lb_title title_text) fs attemptC attemptF attemptM

/-- The ROM loop of `process_directory`: `files` is the sorted listing of
regular files of the folder; non-ROM extensions are skipped, each remaining
file yields exactly one `game` element. -/
def process_directory_games (dir : String) (files : List String)
    (rom_map : String → Option GameNode) (fs : FS)
    (attemptC attemptF attemptM : String → String → Except String Unit) :
    List (List (String × Option String)) :=
  (files.filter is_game_file).map
    (fun f => process_game dir f rom_map fs attemptC attemptF attemptM)

/-- Result of `process_directory` for one folder: the written `gamelist.xml`
content (`none` when the folder was skipped and nothing was written) and the
error log. -/
structure DirResult where
  output : Option (List (List (String × Option String)))
  log : List String
deriving DecidableEq

/-- Model of `process_directory` from the XML-parse step on: a parse failure
is caught, logged, and the folder is skipped before any game is processed and
before any output is written; otherwise `rom_map` is built and every ROM file
is processed.  (The early `return` when the folder has no LaunchBox XML, and
the per-game progress prints, are outside the modelled claims.) -/
def process_directory (dir : String) (parse : Except String (List GameNode))
    (files : List String) (fs : FS)
    (attemptC attemptF attemptM : String → String → Except String Unit) : DirResult :=
  match parse with
  | .error e => { output := none, log := ["  XML Error: " ++ e] }
  | .ok games =>
    { output := some (process_directory_games dir files (build_rom_map games) fs
        attemptC attemptF attemptM),
      log := [] }

/-- Everything determining one folder's processing. -/
structure FolderInput where
  dir : String
  parse : Except String (List GameNode)
  files : List String
  fsys : FS
  attemptCover : String → String → Except String Unit
  attemptFanart : String → String → Except String Unit
  attemptMarquee : String → String → Except String Unit

/-- The main driver loop over qualifying folders: each folder is processed
independently, in order. -/
def process_all (folders : List FolderInput) : List DirResult :=
  folders.map (fun fo =>
    process_directory fo.dir fo.parse fo.files fo.fsys fo.attemptCover fo.attemptFanart
      fo.attemptMarquee)

/-- A filesystem in which no path exists: the locator finds nothing. -/
def fs_empty : FS := { exists_path := fun _ => false, walk := fun _ => [] }

/-- An image-writer outcome oracle whose try block always succeeds. -/
def attempt_ok : String → String → Except String Unit := fun _ _ => Except.ok ()

/-- A concrete record with a 10-character release date. -/
def node_c5 : GameNode :=
  { title := some (some "Sonic CD"), notes := none, developer := none, publisher := none,
    genre := none, maxPlayers := none, releaseDate := some (some "1994-03-18"),
    applicationPath := some (some "Sonic CD.chd") }

/-- A concrete record whose `Notes` element is present but has no text. -/
def node_c6 : GameNode :=
  { title := some (some "Game A"), notes := some none, developer := some (some ""),
    publisher := none, genre := none, maxPlayers := none, releaseDate := none,
    applicationPath := some (some "a.bin") }

/-- A folder input whose XML does not parse. -/
def folder_bad : FolderInput :=
  { dir := "/d", parse := Except.error "syntax error", files := [], fsys := fs_empty,
    attemptCover := attempt_ok, attemptFanart := attempt_ok, attemptMarquee := attempt_ok }

/-- Two records sharing the `ApplicationPath` basename `Sonic.bin`. -/
def g_dup1 : GameNode :=
  { title := some (some "First"), notes := none, developer := none, publisher := none,
    genre := none, maxPlayers := none, releaseDate := none,
    applicationPath := some (some "roms/Sonic.bin") }

def g_dup2 : GameNode :=
  { title := some (some "Second"), notes := none, developer := none, publisher := none,
    genre := none, maxPlayers := none, releaseDate := none,
    applicationPath := some (some "other/Sonic.bin") }

theorem find_in_files_isSome_iff (root : String) (cands : List String) (files : List String) :
    (find_in_files root cands files).isSome = true ↔
      ∃ file ∈ files, lower_ascii (splitext file).2 ∈ valid_exts ∧ (splitext file).1 ∈ cands := by
  induction files with
  | nil => simp [find_in_files]
  | cons f rest ih =>
    by_cases h : lower_ascii (splitext f).2 ∈ valid_exts ∧ (splitext f).1 ∈ cands
    · simp [find_in_files, h]
    · simp only [find_in_files, if_neg h, ih, List.mem_cons]
      constructor
      · rintro ⟨file, hf, hp⟩
        exact ⟨file, Or.inr hf, hp⟩
      · rintro ⟨file, hf | hf, hp⟩
        · exact absurd (hf ▸ hp) h
        · exact ⟨file, hf, hp⟩

theorem find_walk_isSome_iff (cands : List String) (dirs : List (String × List String)) :
    (find_walk cands dirs).isSome = true ↔
      ∃ d ∈ dirs, ∃ file ∈ d.2,
        lower_ascii (splitext file).2 ∈ valid_exts ∧ (splitext file).1 ∈ cands := by
  induction dirs with
  | nil => simp [find_walk]
  | cons d rest ih =>
    cases hfi : find_in_files d.1 cands d.2 with
    | some p =>
      have : (find_in_files d.1 cands d.2).isSome = true := by simp [hfi]
      rw [find_in_files_isSome_iff] at this
      simp only [find_walk, hfi, List.mem_cons]
      constructor
      · intro _
        obtain ⟨file, hf, hp⟩ := this
        exact ⟨d, Or.inl rfl, file, hf, hp⟩
      · intro _; rfl
    | none =>
      have hnone : ¬ ∃ file ∈ d.2,
          lower_ascii (splitext file).2 ∈ valid_exts ∧ (splitext file).1 ∈ cands := by
        rw [← find_in_files_isSome_iff d.1 cands d.2]
        simp [hfi]
      simp only [find_walk, hfi, ih, List.mem_cons]
      constructor
      · rintro ⟨e, he, hp⟩
        exact ⟨e, Or.inr he, hp⟩
      · rintro ⟨e, he | he, hp⟩
        · exact absurd (he ▸ hp) hnone
        · exact ⟨e, he, hp⟩

/-- C1: For every base directory, category subfolder name, sanitized title `t`,
and ROM base filename `r`, `find_image` returns a file path if and only if the
category subfolder exists and some file in its recursive subtree has an
extension in `{.jpg, .jpeg, .png, .gif}` (case-insensitive) and a stem exactly
equal to one of the four candidates `t ++ "-01"`, `t`, `r ++ "-01"`, or `t`
with underscores replaced by spaces; if the subfolder is absent or no file
matches, it returns `none` (and never an error: the function is total). -/
theorem c1_find_image_iff (fs : FS) (base_dir type_folder t r : String) :
    (find_image fs base_dir type_folder t r).isSome = true ↔
      (fs.exists_path (base_dir ++ "/" ++ type_folder) = true ∧
        ∃ d ∈ fs.walk (base_dir ++ "/" ++ type_folder), ∃ file ∈ d.2,
          lower_ascii (splitext file).2 ∈ valid_exts ∧
            (splitext file).1 ∈ candidates t r) := by
  unfold find_image
  by_cases hex : fs.exists_path (base_dir ++ "/" ++ type_folder) = true
  · simp only [hex, if_true, true_and]
    exact find_walk_isSome_iff _ _
  · simp [hex]

theorem one_le_round_aspect (n : ℚ) (k : ℤ → ℚ) : 1 ≤ round_aspect n k :=
  le_max_right _ 1

theorem round_aspect_le (n : ℚ) (k : ℤ → ℚ) (m : ℤ) (hn : n ≤ (m : ℚ)) (hm : 1 ≤ m) :
    round_aspect n k ≤ m := by
  unfold round_aspect
  have hceil : ⌈n⌉ ≤ m := Int.ceil_le.mpr hn
  have hfloor : ⌊n⌋ ≤ m := le_trans (Int.floor_le_ceil n) hceil
  split <;> simp [hfloor, hceil, hm]

theorem round_aspect_near (n : ℚ) (k : ℤ → ℚ) (hn : 0 < n) :
    |((round_aspect n k : ℤ) : ℚ) - n| < 1 := by
  unfold round_aspect
  rcases le_or_lt 1 (if k ⌊n⌋ ≤ k ⌈n⌉ then ⌊n⌋ else ⌈n⌉) with h1 | h1
  · rw [max_eq_left h1]
    split
    · rw [abs_lt]
      constructor
      · have := Int.sub_one_lt_floor n
        linarith
      · have := Int.floor_le n
        linarith
    · rw [abs_lt]
      constructor
      · have := Int.le_ceil n
        linarith
      · have := Int.ceil_lt_add_one n
        linarith
  · rw [max_eq_right (le_of_lt h1)]
    have hlt2 : n < 2 := by
      revert h1
      split
      · intro h1
        have hfl : (⌊n⌋ : ℚ) ≤ 0 := by
          exact_mod_cast Int.lt_add_one_iff.mp h1
        have := Int.lt_floor_add_one n
        linarith
      · intro h1
        have hcl : (⌈n⌉ : ℚ) ≤ 0 := by
          exact_mod_cast Int.lt_add_one_iff.mp h1
        have := Int.le_ceil n
        linarith
    rw [abs_lt]
    push_cast
    constructor <;> linarith

theorem thumbnail_size_le (size wh : ℕ × ℕ) (hx : 0 < size.1) (hy : 0 < size.2)
    (hw : 0 < wh.1) (hh : 0 < wh.2) :
    (thumbnail_size size wh).1 ≤ size.1 ∧ (thumbnail_size size wh).2 ≤ size.2 := by
  obtain ⟨x, y⟩ := size
  obtain ⟨w, h⟩ := wh
  simp only at hx hy hw hh
  unfold thumbnail_size
  split
  · next hg => exact hg
  · have hyq : (0 : ℚ) < (y : ℚ) := by exact_mod_cast hy
    have hwq : (0 : ℚ) < (w : ℚ) := by exact_mod_cast hw
    have hhq : (0 : ℚ) < (h : ℚ) := by exact_mod_cast hh
    have h1x : (1 : ℤ) ≤ (x : ℤ) := by exact_mod_cast hx
    have h1y : (1 : ℤ) ≤ (y : ℤ) := by exact_mod_cast hy
    split
    · next hbr =>
      simp only at hbr ⊢
      constructor
      · have hle : (y : ℚ) * ((w : ℚ) / (h : ℚ)) ≤ ((x : ℤ) : ℚ) := by
          have h2 : (y : ℚ) * ((w : ℚ) / (h : ℚ)) ≤ (y : ℚ) * ((x : ℚ) / (y : ℚ)) :=
            mul_le_mul_of_nonneg_left hbr (le_of_lt hyq)
          have h3 : (y : ℚ) * ((x : ℚ) / (y : ℚ)) = (x : ℚ) := by
            rw [mul_comm]
            exact div_mul_cancel₀ _ (ne_of_gt hyq)
          push_cast
          linarith
        have := round_aspect_le _ (fun n => |(w : ℚ) / (h : ℚ) - (n : ℚ) / (y : ℚ)|)
          (x : ℤ) hle h1x
        exact Int.toNat_le.mpr this
      · exact le_refl y
    · next hbr =>
      simp only at hbr ⊢
      push_neg at hbr
      refine ⟨le_refl x, ?_⟩
      have haspect : (0 : ℚ) < (w : ℚ) / (h : ℚ) := div_pos hwq hhq
      have hle : (x : ℚ) / ((w : ℚ) / (h : ℚ)) ≤ ((y : ℤ) : ℚ) := by
        have h2 : (x : ℚ) < (w : ℚ) / (h : ℚ) * (y : ℚ) := (div_lt_iff hyq).mp hbr
        have h3 : (x : ℚ) / ((w : ℚ) / (h : ℚ)) < (y : ℚ) := (div_lt_iff haspect).mpr (by linarith)
        push_cast
        linarith
      have := round_aspect_le _
        (fun n => if n = 0 then 0 else |(w : ℚ) / (h : ℚ) - (x : ℚ) / (n : ℚ)|) (y : ℤ) hle h1y
      exact Int.toNat_le.mpr this

theorem thumbnail_size_noop (size wh : ℕ × ℕ) (hw : wh.1 ≤ size.1) (hh : wh.2 ≤ size.2) :
    thumbnail_size size wh = wh := by
  unfold thumbnail_size
  rw [if_pos ⟨hw, hh⟩]

theorem int_toNat_cast_q (z : ℤ) (hz : 0 ≤ z) : ((z.toNat : ℕ) : ℚ) = ((z : ℤ) : ℚ) := by
  exact_mod_cast congrArg (fun m => ((m : ℤ) : ℚ)) (Int.toNat_of_nonneg hz)

theorem thumbnail_size_aspect (size wh : ℕ × ℕ) (hx : 0 < size.1) (hy : 0 < size.2)
    (hw : 0 < wh.1) (hh : 0 < wh.2) :
    |((thumbnail_size size wh).1 : ℚ) - ((thumbnail_size size wh).2 : ℚ) * wh.1 / wh.2| < 1 ∨
      |((thumbnail_size size wh).2 : ℚ) - ((thumbnail_size size wh).1 : ℚ) * wh.2 / wh.1| < 1 := by
  obtain ⟨x, y⟩ := size
  obtain ⟨w, h⟩ := wh
  simp only at hx hy hw hh
  have hyq : (0 : ℚ) < (y : ℚ) := by exact_mod_cast hy
  have hxq : (0 : ℚ) < (x : ℚ) := by exact_mod_cast hx
  have hwq : (0 : ℚ) < (w : ℚ) := by exact_mod_cast hw
  have hhq : (0 : ℚ) < (h : ℚ) := by exact_mod_cast hh
  unfold thumbnail_size
  split
  · left
    simp only
    have : (h : ℚ) * (w : ℚ) / (h : ℚ) = (w : ℚ) := by
      rw [mul_comm]
      exact mul_div_cancel_right₀ _ (ne_of_gt hhq)
    rw [this]
    simp
  · split
    · left
      simp only
      set r := round_aspect ((y : ℚ) * ((w : ℚ) / (h : ℚ)))
        (fun n => |(w : ℚ) / (h : ℚ) - (n : ℚ) / (y : ℚ)|) with hr
      have h1 : (1 : ℤ) ≤ r := one_le_round_aspect _ _
      have hcast : ((r.toNat : ℕ) : ℚ) = ((r : ℤ) : ℚ) := int_toNat_cast_q r (by linarith)
      have hpos : (0 : ℚ) < (y : ℚ) * ((w : ℚ) / (h : ℚ)) :=
        mul_pos hyq (div_pos hwq hhq)
      have hnear := round_aspect_near _ (fun n => |(w : ℚ) / (h : ℚ) - (n : ℚ) / (y : ℚ)|) hpos
      rw [← hr] at hnear
      rw [hcast]
      have heq : (y : ℚ) * ((w : ℚ) / (h : ℚ)) = (y : ℚ) * (w : ℚ) / (h : ℚ) := by ring
      rw [heq] at hnear
      exact hnear
    · right
      simp only
      set r := round_aspect ((x : ℚ) / ((w : ℚ) / (h : ℚ)))
        (fun n => if n = 0 then 0 else |(w : ℚ) / (h : ℚ) - (x : ℚ) / (n : ℚ)|) with hr
      have h1 : (1 : ℤ) ≤ r := one_le_round_aspect _ _
      have hcast : ((r.toNat : ℕ) : ℚ) = ((r : ℤ) : ℚ) := int_toNat_cast_q r (by linarith)
      have hpos : (0 : ℚ) < (x : ℚ) / ((w : ℚ) / (h : ℚ)) :=
        div_pos hxq (div_pos hwq hhq)
      have hnear := round_aspect_near _
        (fun n => if n = 0 then 0 else |(w : ℚ) / (h : ℚ) - (x : ℚ) / (n : ℚ)|) hpos
      rw [← hr] at hnear
      rw [hcast]
      have heq : (x : ℚ) / ((w : ℚ) / (h : ℚ)) = (x : ℚ) * (h : ℚ) / (w : ℚ) :=
        div_div_eq_mul_div _ _ _
      rw [heq] at hnear
      exact hnear

theorem fit_crop_box_spec (w h : ℕ) (hw : 0 < w) (hh : 0 < h) :
    0 ≤ (fit_crop_box w h TARGET_RES_FANART).left ∧
    (fit_crop_box w h TARGET_RES_FANART).right ≤ (w : ℚ) ∧
    0 ≤ (fit_crop_box w h TARGET_RES_FANART).top ∧
    (fit_crop_box w h TARGET_RES_FANART).bottom ≤ (h : ℚ) ∧
    (fit_crop_box w h TARGET_RES_FANART).left
      = (w : ℚ) - (fit_crop_box w h TARGET_RES_FANART).right ∧
    (fit_crop_box w h TARGET_RES_FANART).top
      = (h : ℚ) - (fit_crop_box w h TARGET_RES_FANART).bottom ∧
    ((fit_crop_box w h TARGET_RES_FANART).right - (fit_crop_box w h TARGET_RES_FANART).left) * 720
      = ((fit_crop_box w h TARGET_RES_FANART).bottom
          - (fit_crop_box w h TARGET_RES_FANART).top) * 1280 := by
  have hwq : (0 : ℚ) < (w : ℚ) := by exact_mod_cast hw
  have hhq : (0 : ℚ) < (h : ℚ) := by exact_mod_cast hh
  simp only [fit_crop_box, TARGET_RES_FANART, Nat.cast_ofNat]
  split
  · next heq =>
    have hwh : (w : ℚ) * 720 = 1280 * (h : ℚ) := by
      rw [div_eq_div_iff (ne_of_gt hhq) (by norm_num : (720 : ℚ) ≠ 0)] at heq
      linarith
    dsimp only
    refine ⟨by linarith, by linarith, by linarith, by linarith, by ring, by ring, by linarith⟩
  · split
    · next hge =>
      dsimp only
      have hcw : (1280 : ℚ) / 720 * (h : ℚ) ≤ (w : ℚ) := by
        have h2 := mul_le_mul_of_nonneg_right hge (le_of_lt hhq)
        rwa [div_mul_cancel₀ _ (ne_of_gt hhq)] at h2
      have hcw0 : (0 : ℚ) < (1280 : ℚ) / 720 * (h : ℚ) := by positivity
      refine ⟨by linarith, by linarith, by linarith, by linarith, by ring, by ring, ?_⟩
      field_simp
      ring
    · next hlt =>
      push_neg at hlt
      dsimp only
      have hch : (w : ℚ) / ((1280 : ℚ) / 720) < (h : ℚ) := by
        rw [div_lt_iff (by norm_num : (0 : ℚ) < (1280 : ℚ) / 720)]
        have h2 := mul_lt_mul_of_pos_right hlt hhq
        rw [div_mul_cancel₀ _ (ne_of_gt hhq)] at h2
        linarith
      have hch0 : (0 : ℚ) < (w : ℚ) / ((1280 : ℚ) / 720) := by positivity
      refine ⟨by linarith, by linarith, by linarith, by linarith, by ring, by ring, ?_⟩
      field_simp
      ring

/-- C2: every fanart output is exactly 1280×720 regardless of the input
dimensions, encoded as a quality-80 optimized JPEG; the crop box used lies
inside the source image, is centered (equal margins on both axes), and has
exactly the 1280:720 aspect ratio (scale-to-cover then center-crop). -/
theorem c2_fanart_dims (w h : ℕ) (hw : 0 < w) (hh : 0 < h) :
    (process_image_fanart w h).1.width = 1280 ∧
    (process_image_fanart w h).1.height = 720 ∧
    (process_image_fanart w h).1.format = "JPEG" ∧
    (process_image_fanart w h).1.quality = some 80 ∧
    (process_image_fanart w h).1.optimize = true ∧
    (0 ≤ (process_image_fanart w h).2.left ∧ (process_image_fanart w h).2.right ≤ (w : ℚ) ∧
      0 ≤ (process_image_fanart w h).2.top ∧ (process_image_fanart w h).2.bottom ≤ (h : ℚ)) ∧
    (process_image_fanart w h).2.left = (w : ℚ) - (process_image_fanart w h).2.right ∧
    (process_image_fanart w h).2.top = (h : ℚ) - (process_image_fanart w h).2.bottom ∧
    ((process_image_fanart w h).2.right - (process_image_fanart w h).2.left) * 720 =
      ((process_image_fanart w h).2.bottom - (process_image_fanart w h).2.top) * 1280 := by
  obtain ⟨h1, h2, h3, h4, h5, h6, h7⟩ := fit_crop_box_spec w h hw hh
  exact ⟨rfl, rfl, rfl, rfl, rfl, ⟨h1, h2, h3, h4⟩, h5, h6, h7⟩

/-- Witness for C2 at a concrete input (a 1920×1080 source image). -/
theorem c2_fanart_dims_witness :
    (process_image_fanart 1920 1080).1.width = 1280 ∧
      (process_image_fanart 1920 1080).1.height = 720 :=
  ⟨(c2_fanart_dims 1920 1080 (by norm_num) (by norm_num)).1,
    (c2_fanart_dims 1920 1080 (by norm_num) (by norm_num)).2.1⟩

/-- C3: cover outputs never exceed 512×512 and marquee outputs never exceed
512×256; an input already inside the bounding box is returned with unchanged
dimensions (no upscaling); and the aspect ratio is preserved up to the
unavoidable integer rounding — one output dimension is exact and the other is
within 1 of the exactly proportional value. -/
theorem c3_thumbnail_bounds (w h : ℕ) (hw : 0 < w) (hh : 0 < h) :
    ((process_image_cover w h).width ≤ 512 ∧ (process_image_cover w h).height ≤ 512) ∧
    ((process_image_marquee w h).width ≤ 512 ∧ (process_image_marquee w h).height ≤ 256) ∧
    (w ≤ 512 → h ≤ 512 →
      (process_image_cover w h).width = w ∧ (process_image_cover w h).height = h) ∧
    (w ≤ 512 → h ≤ 256 →
      (process_image_marquee w h).width = w ∧ (process_image_marquee w h).height = h) ∧
    (|((thumbnail_size TARGET_RES_COVER (w, h)).1 : ℚ)
        - ((thumbnail_size TARGET_RES_COVER (w, h)).2 : ℚ) * w / h| < 1 ∨
      |((thumbnail_size TARGET_RES_COVER (w, h)).2 : ℚ)
        - ((thumbnail_size TARGET_RES_COVER (w, h)).1 : ℚ) * h / w| < 1) ∧
    (|((thumbnail_size TARGET_RES_LOGO (w, h)).1 : ℚ)
        - ((thumbnail_size TARGET_RES_LOGO (w, h)).2 : ℚ) * w / h| < 1 ∨
      |((thumbnail_size TARGET_RES_LOGO (w, h)).2 : ℚ)
        - ((thumbnail_size TARGET_RES_LOGO (w, h)).1 : ℚ) * h / w| < 1) := by
  have hc := thumbnail_size_le TARGET_RES_COVER (w, h) (by decide) (by decide) hw hh
  have hm := thumbnail_size_le TARGET_RES_LOGO (w, h) (by decide) (by decide) hw hh
  refine ⟨hc, hm, ?_, ?_, ?_, ?_⟩
  · intro hw5 hh5
    have := thumbnail_size_noop TARGET_RES_COVER (w, h) hw5 hh5
    constructor <;> simp [process_image_cover, this]
  · intro hw5 hh5
    have := thumbnail_size_noop TARGET_RES_LOGO (w, h) hw5 hh5
    constructor <;> simp [process_image_marquee, this]
  · exact thumbnail_size_aspect TARGET_RES_COVER (w, h) (by decide) (by decide) hw hh
  · exact thumbnail_size_aspect TARGET_RES_LOGO (w, h) (by decide) (by decide) hw hh

/-- Witness for C3 at a concrete input (a 2000×1000 source image). -/
theorem c3_thumbnail_bounds_witness :
    ((process_image_cover 2000 1000).width ≤ 512 ∧
      (process_image_cover 2000 1000).height ≤ 512) ∧
    ((process_image_marquee 2000 1000).width ≤ 512 ∧
      (process_image_marquee 2000 1000).height ≤ 256) :=
  ⟨(c3_thumbnail_bounds 2000 1000 (by norm_num) (by norm_num)).1,
    (c3_thumbnail_bounds 2000 1000 (by norm_num) (by norm_num)).2.1⟩

/-! ### Field-membership lemmas for the produced game elements -/

theorem desc_field_mem_fst {v : Option (Option String)} {p : String × Option String}
    (hp : p ∈ desc_field v) : p.1 = "desc" := by
  rcases v with _ | t
  · simp [desc_field] at hp
  · simp [desc_field] at hp
    simp [hp]

theorem tag_field_mem_fst {tag : String} {v : Option (Option String)}
    {p : String × Option String} (hp : p ∈ tag_field tag v) : p.1 = tag := by
  rcases v with _ | (_ | s)
  · simp [tag_field] at hp
  · simp [tag_field] at hp
  · by_cases hs : s = ""
    · simp [tag_field, hs] at hp
    · simp [tag_field, hs] at hp
      simp [hp]

theorem releasedate_field_mem_fst {v : Option (Option String)} {p : String × Option String}
    (hp : p ∈ releasedate_field v) : p.1 = "releasedate" := by
  rcases v with _ | (_ | s)
  · simp [releasedate_field] at hp
  · simp [releasedate_field] at hp
  · by_cases hs : s = ""
    · simp [releasedate_field, hs] at hp
    · by_cases hl : 10 ≤ s.length
      · simp [releasedate_field, hs, hl] at hp
        simp [hp]
      · simp [releasedate_field, hs, hl] at hp

theorem image_block_mem_fst {tag : String} {src : Option String} {ok : String → Bool}
    {dest_rel : String} {p : String × Option String}
    (hp : p ∈ image_block tag src ok dest_rel) : p.1 = tag := by
  rcases src with _ | s
  · simp [image_block] at hp
  · by_cases hok : ok s = true
    · simp [image_block, hok] at hp
      simp [hp]
    · simp [image_block, hok] at hp

theorem meta_fields_mem_fst {node : GameNode} {p : String × Option String}
    (hp : p ∈ meta_fields node) :
    p.1 = "desc" ∨ p.1 = "developer" ∨ p.1 = "publisher" ∨ p.1 = "genre" ∨
      p.1 = "maxplayers" ∨ p.1 = "releasedate" := by
  simp only [meta_fields, List.mem_append] at hp
  rcases hp with ((((h | h) | h) | h) | h) | h
  · exact Or.inl (desc_field_mem_fst h)
  · exact Or.inr (Or.inl (tag_field_mem_fst h))
  · exact Or.inr (Or.inr (Or.inl (tag_field_mem_fst h)))
  · exact Or.inr (Or.inr (Or.inr (Or.inl (tag_field_mem_fst h))))
  · exact Or.inr (Or.inr (Or.inr (Or.inr (Or.inl (tag_field_mem_fst h)))))
  · exact Or.inr (Or.inr (Or.inr (Or.inr (Or.inr (releasedate_field_mem_fst h)))))

theorem art_fields_mem_fst {dir name rom_base sanitized : String} {fs : FS}
    {aC aF aM : String → String → Except String Unit} {p : String × Option String}
    (hp : p ∈ art_fields dir name rom_base sanitized fs aC aF aM) :
    p.1 = "image" ∨ p.1 = "fanart" ∨ p.1 = "marquee" := by
  simp only [art_fields, List.mem_append] at hp
  rcases hp with (h | h) | h
  · exact Or.inl (image_block_mem_fst h)
  · exact Or.inr (Or.inl (image_block_mem_fst h))
  · exact Or.inr (Or.inr (image_block_mem_fst h))

theorem image_block_mem_iff (tag : String) (src : Option String) (ok : String → Bool)
    (dest_rel : String) :
    (∃ v, (tag, v) ∈ image_block tag src ok dest_rel) ↔ ∃ s, src = some s ∧ ok s = true := by
  rcases src with _ | s
  · simp [image_block]
  · by_cases hok : ok s = true
    · simp [image_block, hok]
    · simp [image_block, hok]

/-- Membership of an artwork tag in a produced game element reduces to the
artwork block: a matched metadata record is required, and the other fields
carry different tags. -/
theorem mem_process_game_iff_art (dir f : String) (rom_map : String → Option GameNode)
    (fs : FS) (aC aF aM : String → String → Except String Unit)
    (tag : String) (v : Option String)
    (htag : tag = "image" ∨ tag = "fanart" ∨ tag = "marquee") :
    ((tag, v) ∈ process_game dir f rom_map fs aC aF aM) ↔
      ∃ node, rom_map f = some node ∧
        (tag, v) ∈ art_fields dir (splitext f).1 (splitext f).1
          (sanitize_lb_title (resolved_title node.title (splitext f).1)) fs aC aF aM := by
  cases hrm : rom_map f with
  | none =>
    simp only [process_game, hrm]
    constructor
    · intro h
      rcases htag with h1 | h1 | h1 <;> subst h1 <;> simp at h
    · rintro ⟨node, hnode, _⟩
      cases hnode
  | some node =>
    simp only [process_game, hrm, List.append_assoc, List.cons_append, List.nil_append,
      List.mem_cons, List.mem_append, Option.some.injEq]
    constructor
    · intro h
      rcases h with h | h | h | h
      · exfalso; rcases htag with h1 | h1 | h1 <;> subst h1 <;> simp at h
      · exfalso; rcases htag with h1 | h1 | h1 <;> subst h1 <;> simp at h
      · exfalso
        have := meta_fields_mem_fst h
        rcases htag with h1 | h1 | h1 <;> subst h1 <;> simp at this
      · exact ⟨node, rfl, h⟩
    · rintro ⟨node2, rfl, h⟩
      exact Or.inr (Or.inr (Or.inr h))

/-- Membership of a metadata tag in a produced game element reduces to the
metadata block. -/
theorem mem_process_game_iff_meta (dir f : String) (rom_map : String → Option GameNode)
    (fs : FS) (aC aF aM : String → String → Except String Unit)
    (tag : String) (v : Option String)
    (htag : tag = "desc" ∨ tag = "developer" ∨ tag = "publisher" ∨ tag = "genre" ∨
      tag = "maxplayers" ∨ tag = "releasedate") :
    ((tag, v) ∈ process_game dir f rom_map fs aC aF aM) ↔
      ∃ node, rom_map f = some node ∧ (tag, v) ∈ meta_fields node := by
  cases hrm : rom_map f with
  | none =>
    simp only [process_game, hrm]
    constructor
    · intro h
      rcases htag with h1 | h1 | h1 | h1 | h1 | h1 <;> subst h1 <;> simp at h
    · rintro ⟨node, hnode, _⟩
      cases hnode
  | some node =>
    simp only [process_game, hrm, List.append_assoc, List.cons_append, List.nil_append,
      List.mem_cons, List.mem_append, Option.some.injEq]
    constructor
    · intro h
      rcases h with h | h | h | h
      · exfalso; rcases htag with h1 | h1 | h1 | h1 | h1 | h1 <;> subst h1 <;> simp at h
      · exfalso; rcases htag with h1 | h1 | h1 | h1 | h1 | h1 <;> subst h1 <;> simp at h
      · exact ⟨node, rfl, h⟩
      · exfalso
        have := art_fields_mem_fst h
        rcases htag with h1 | h1 | h1 | h1 | h1 | h1 <;> subst h1 <;>
          rcases this with h2 | h2 | h2 <;> simp at h2
    · rintro ⟨node2, rfl, h⟩
      exact Or.inr (Or.inr (Or.inl h))

theorem art_fields_mem_image (dir name rom_base sanitized : String) (fs : FS)
    (aC aF aM : String → String → Except String Unit) (v : Option String) :
    (("image", v) ∈ art_fields dir name rom_base sanitized fs aC aF aM) ↔
      ("image", v) ∈ image_block "image" (find_image fs dir "Front" sanitized name)
        (fun s => image_try (aC s (dir ++ "/images/covers/" ++ rom_base ++ ".jpg")))
        ("./images/covers/" ++ rom_base ++ ".jpg") := by
  simp only [art_fields, List.mem_append]
  constructor
  · rintro ((h | h) | h)
    · exact h
    · exact absurd (image_block_mem_fst h) (by simp)
    · exact absurd (image_block_mem_fst h) (by simp)
  · intro h
    exact Or.inl (Or.inl h)

theorem art_fields_mem_fanart (dir name rom_base sanitized : String) (fs : FS)
    (aC aF aM : String → String → Except String Unit) (v : Option String) :
    (("fanart", v) ∈ art_fields dir name rom_base sanitized fs aC aF aM) ↔
      ("fanart", v) ∈ image_block "fanart" (find_image fs dir "Screenshot" sanitized name)
        (fun s => image_try (aF s (dir ++ "/images/fanart/" ++ rom_base ++ ".jpg")))
        ("./images/fanart/" ++ rom_base ++ ".jpg") := by
  simp only [art_fields, List.mem_append]
  constructor
  · rintro ((h | h) | h)
    · exact absurd (image_block_mem_fst h) (by simp)
    · exact h
    · exact absurd (image_block_mem_fst h) (by simp)
  · intro h
    exact Or.inl (Or.inr h)

theorem art_fields_mem_marquee (dir name rom_base sanitized : String) (fs : FS)
    (aC aF aM : String → String → Except String Unit) (v : Option String) :
    (("marquee", v) ∈ art_fields dir name rom_base sanitized fs aC aF aM) ↔
      ("marquee", v) ∈ image_block "marquee" (find_image fs dir "Clear Logo" sanitized name)
        (fun s => image_try (aM s (dir ++ "/images/marquees/" ++ rom_base ++ ".png")))
        ("./images/marquees/" ++ rom_base ++ ".png") := by
  simp only [art_fields, List.mem_append]
  constructor
  · rintro ((h | h) | h)
    · exact absurd (image_block_mem_fst h) (by simp)
    · exact absurd (image_block_mem_fst h) (by simp)
    · exact h
  · intro h
    exact Or.inr h

/-- C4: each image field (`image`, `fanart`, `marquee`) is present in the
produced game element if and only if the corresponding artwork asset was found
by the locator AND its image-processing try block succeeded (`image_try` maps
any caught exception to `false`, in which case the field is omitted); and the
folder's loop produces exactly one element per ROM file irrespective of the
locator and processing outcomes — a failure never aborts the remaining games. -/
theorem c4_image_fields (dir f : String) (files : List String)
    (rom_map : String → Option GameNode) (fs : FS)
    (aC aF aM : String → String → Except String Unit) :
    ((∃ v, ("image", v) ∈ process_game dir f rom_map fs aC aF aM) ↔
      ∃ node, rom_map f = some node ∧
        ∃ src, find_image fs dir "Front"
            (sanitize_lb_title (resolved_title node.title (splitext f).1)) (splitext f).1
            = some src ∧
          image_try (aC src (dir ++ "/images/covers/" ++ (splitext f).1 ++ ".jpg")) = true) ∧
    ((∃ v, ("fanart", v) ∈ process_game dir f rom_map fs aC aF aM) ↔
      ∃ node, rom_map f = some node ∧
        ∃ src, find_image fs dir "Screenshot"
            (sanitize_lb_title (resolved_title node.title (splitext f).1)) (splitext f).1
            = some src ∧
          image_try (aF src (dir ++ "/images/fanart/" ++ (splitext f).1 ++ ".jpg")) = true) ∧
    ((∃ v, ("marquee", v) ∈ process_game dir f rom_map fs aC aF aM) ↔
      ∃ node, rom_map f = some node ∧
        ∃ src, find_image fs dir "Clear Logo"
            (sanitize_lb_title (resolved_title node.title (splitext f).1)) (splitext f).1
            = some src ∧
          image_try (aM src (dir ++ "/images/marquees/" ++ (splitext f).1 ++ ".png")) = true) ∧
    (process_directory_games dir files rom_map fs aC aF aM).length
      = (files.filter is_game_file).length := by
  refine ⟨?_, ?_, ?_, ?_⟩
  · constructor
    · rintro ⟨v, hv⟩
      obtain ⟨node, hnode, hart⟩ :=
        (mem_process_game_iff_art dir f rom_map fs aC aF aM "image" v (Or.inl rfl)).mp hv
      rw [art_fields_mem_image] at hart
      exact ⟨node, hnode, (image_block_mem_iff _ _ _ _).mp ⟨v, hart⟩⟩
    · rintro ⟨node, hnode, src, hsrc, hok⟩
      obtain ⟨v, hv⟩ := (image_block_mem_iff "image"
        (find_image fs dir "Front"
          (sanitize_lb_title (resolved_title node.title (splitext f).1)) (splitext f).1)
        (fun s => image_try (aC s (dir ++ "/images/covers/" ++ (splitext f).1 ++ ".jpg")))
        ("./images/covers/" ++ (splitext f).1 ++ ".jpg")).mpr ⟨src, hsrc, hok⟩
      refine ⟨v, (mem_process_game_iff_art dir f rom_map fs aC aF aM "image" v
        (Or.inl rfl)).mpr ⟨node, hnode, ?_⟩⟩
      rw [art_fields_mem_image]
      exact hv
  · constructor
    · rintro ⟨v, hv⟩
      obtain ⟨node, hnode, hart⟩ :=
        (mem_process_game_iff_art dir f rom_map fs aC aF aM "fanart" v (Or.inr (Or.inl rfl))).mp hv
      rw [art_fields_mem_fanart] at hart
      exact ⟨node, hnode, (image_block_mem_iff _ _ _ _).mp ⟨v, hart⟩⟩
    · rintro ⟨node, hnode, src, hsrc, hok⟩
      obtain ⟨v, hv⟩ := (image_block_mem_iff "fanart"
        (find_image fs dir "Screenshot"
          (sanitize_lb_title (resolved_title node.title (splitext f).1)) (splitext f).1)
        (fun s => image_try (aF s (dir ++ "/images/fanart/" ++ (splitext f).1 ++ ".jpg")))
        ("./images/fanart/" ++ (splitext f).1 ++ ".jpg")).mpr ⟨src, hsrc, hok⟩
      refine ⟨v, (mem_process_game_iff_art dir f rom_map fs aC aF aM "fanart" v
        (Or.inr (Or.inl rfl))).mpr ⟨node, hnode, ?_⟩⟩
      rw [art_fields_mem_fanart]
      exact hv
  · constructor
    · rintro ⟨v, hv⟩
      obtain ⟨node, hnode, hart⟩ :=
        (mem_process_game_iff_art dir f rom_map fs aC aF aM "marquee" v
          (Or.inr (Or.inr rfl))).mp hv
      rw [art_fields_mem_marquee] at hart
      exact ⟨node, hnode, (image_block_mem_iff _ _ _ _).mp ⟨v, hart⟩⟩
    · rintro ⟨node, hnode, src, hsrc, hok⟩
      obtain ⟨v, hv⟩ := (image_block_mem_iff "marquee"
        (find_image fs dir "Clear Logo"
          (sanitize_lb_title (resolved_title node.title (splitext f).1)) (splitext f).1)
        (fun s => image_try (aM s (dir ++ "/images/marquees/" ++ (splitext f).1 ++ ".png")))
        ("./images/marquees/" ++ (splitext f).1 ++ ".png")).mpr ⟨src, hsrc, hok⟩
      refine ⟨v, (mem_process_game_iff_art dir f rom_map fs aC aF aM "marquee" v
        (Or.inr (Or.inr rfl))).mpr ⟨node, hnode, ?_⟩⟩
      rw [art_fields_mem_marquee]
      exact hv
  · simp [process_directory_games]

theorem meta_mem_desc (node : GameNode) (v : Option String) :
    (("desc", v) ∈ meta_fields node) ↔ ("desc", v) ∈ desc_field node.notes := by
  simp only [meta_fields, List.mem_append]
  constructor
  · rintro (((((h | h) | h) | h) | h) | h)
    · exact h
    · exact absurd (tag_field_mem_fst h) (by simp)
    · exact absurd (tag_field_mem_fst h) (by simp)
    · exact absurd (tag_field_mem_fst h) (by simp)
    · exact absurd (tag_field_mem_fst h) (by simp)
    · exact absurd (releasedate_field_mem_fst h) (by simp)
  · intro h
    exact Or.inl (Or.inl (Or.inl (Or.inl (Or.inl h))))

theorem meta_mem_developer (node : GameNode) (v : Option String) :
    (("developer", v) ∈ meta_fields node) ↔
      ("developer", v) ∈ tag_field "developer" node.developer := by
  simp only [meta_fields, List.mem_append]
  constructor
  · rintro (((((h | h) | h) | h) | h) | h)
    · exact absurd (desc_field_mem_fst h) (by simp)
    · exact h
    · exact absurd (tag_field_mem_fst h) (by simp)
    · exact absurd (tag_field_mem_fst h) (by simp)
    · exact absurd (tag_field_mem_fst h) (by simp)
    · exact absurd (releasedate_field_mem_fst h) (by simp)
  · intro h
    exact Or.inl (Or.inl (Or.inl (Or.inl (Or.inr h))))

theorem meta_mem_publisher (node : GameNode) (v : Option String) :
    (("publisher", v) ∈ meta_fields node) ↔
      ("publisher", v) ∈ tag_field "publisher" node.publisher := by
  simp only [meta_fields, List.mem_append]
  constructor
  · rintro (((((h | h) | h) | h) | h) | h)
    · exact absurd (desc_field_mem_fst h) (by simp)
    · exact absurd (tag_field_mem_fst h) (by simp)
    · exact h
    · exact absurd (tag_field_mem_fst h) (by simp)
    · exact absurd (tag_field_mem_fst h) (by simp)
    · exact absurd (releasedate_field_mem_fst h) (by simp)
  · intro h
    exact Or.inl (Or.inl (Or.inl (Or.inr h)))

theorem meta_mem_genre (node : GameNode) (v : Option String) :
    (("genre", v) ∈ meta_fields node) ↔ ("genre", v) ∈ tag_field "genre" node.genre := by
  simp only [meta_fields, List.mem_append]
  constructor
  · rintro (((((h | h) | h) | h) | h) | h)
    · exact absurd (desc_field_mem_fst h) (by simp)
    · exact absurd (tag_field_mem_fst h) (by simp)
    · exact absurd (tag_field_mem_fst h) (by simp)
    · exact h
    · exact absurd (tag_field_mem_fst h) (by simp)
    · exact absurd (releasedate_field_mem_fst h) (by simp)
  · intro h
    exact Or.inl (Or.inl (Or.inr h))

theorem meta_mem_maxplayers (node : GameNode) (v : Option String) :
    (("maxplayers", v) ∈ meta_fields node) ↔
      ("maxplayers", v) ∈ tag_field "maxplayers" node.maxPlayers := by
  simp only [meta_fields, List.mem_append]
  constructor
  · rintro (((((h | h) | h) | h) | h) | h)
    · exact absurd (desc_field_mem_fst h) (by simp)
    · exact absurd (tag_field_mem_fst h) (by simp)
    · exact absurd (tag_field_mem_fst h) (by simp)
    · exact absurd (tag_field_mem_fst h) (by simp)
    · exact h
    · exact absurd (releasedate_field_mem_fst h) (by simp)
  · intro h
    exact Or.inl (Or.inr h)

theorem meta_mem_releasedate (node : GameNode) (v : Option String) :
    (("releasedate", v) ∈ meta_fields node) ↔
      ("releasedate", v) ∈ releasedate_field node.releaseDate := by
  simp only [meta_fields, List.mem_append]
  constructor
  · rintro (((((h | h) | h) | h) | h) | h)
    · exact absurd (desc_field_mem_fst h) (by simp)
    · exact absurd (tag_field_mem_fst h) (by simp)
    · exact absurd (tag_field_mem_fst h) (by simp)
    · exact absurd (tag_field_mem_fst h) (by simp)
    · exact absurd (tag_field_mem_fst h) (by simp)
    · exact h
  · intro h
    exact Or.inr h

theorem desc_field_mem_iff (v : Option (Option String)) :
    (∃ w, ("desc", w) ∈ desc_field v) ↔ v ≠ none := by
  rcases v with _ | t <;> simp [desc_field]

theorem desc_field_mem_val (t : Option String) : ("desc", t) ∈ desc_field (some t) := by
  simp [desc_field]

theorem tag_field_mem_iff (tag : String) (v : Option (Option String)) :
    (∃ w, (tag, w) ∈ tag_field tag v) ↔ ∃ s, v = some (some s) ∧ s ≠ "" := by
  rcases v with _ | (_ | s)
  · simp [tag_field]
  · simp [tag_field]
  · by_cases hs : s = ""
    · simp [tag_field, hs]
    · simp [tag_field, hs]

theorem tag_field_mem_val (tag : String) (s : String) (hs : s ≠ "") :
    (tag, some s) ∈ tag_field tag (some (some s)) := by
  simp [tag_field, hs]

theorem releasedate_field_mem_iff (v : Option (Option String)) :
    (∃ w, ("releasedate", w) ∈ releasedate_field v) ↔
      ∃ s, v = some (some s) ∧ 10 ≤ s.length := by
  rcases v with _ | (_ | s)
  · simp [releasedate_field]
  · simp [releasedate_field]
  · by_cases hs : s = ""
    · subst hs
      simp [releasedate_field]
    · by_cases hl : 10 ≤ s.length
      · simp [releasedate_field, hs, hl]
      · simp [releasedate_field, hs, hl]

theorem releasedate_field_mem_val (s : String) (hs : s ≠ "") (hl : 10 ≤ s.length) :
    ("releasedate", some (strip_dashes (take10 s) ++ "T000000"))
      ∈ releasedate_field (some (some s)) := by
  simp [releasedate_field, hs, hl]

/-- C5: a `releasedate` field is emitted if and only if the `ReleaseDate`
element is present with a text of length at least 10, and in that case its
value is the first 10 characters with dashes removed followed by `"T000000"`
(so `"YYYY-MM-DD"` yields `"YYYYMMDDT000000"`); a shorter or absent source
string produces no field. -/
theorem c5_releasedate (dir f : String) (rom_map : String → Option GameNode) (fs : FS)
    (aC aF aM : String → String → Except String Unit) (node : GameNode)
    (hnode : rom_map f = some node) :
    ((∃ v, ("releasedate", v) ∈ process_game dir f rom_map fs aC aF aM) ↔
      ∃ s, node.releaseDate = some (some s) ∧ 10 ≤ s.length) ∧
    ∀ s, node.releaseDate = some (some s) → 10 ≤ s.length →
      ("releasedate", some (strip_dashes (take10 s) ++ "T000000"))
        ∈ process_game dir f rom_map fs aC aF aM := by
  have htag : "releasedate" = "desc" ∨ "releasedate" = "developer" ∨
      "releasedate" = "publisher" ∨ "releasedate" = "genre" ∨
      "releasedate" = "maxplayers" ∨ "releasedate" = "releasedate" := by
    simp
  constructor
  · constructor
    · rintro ⟨v, hv⟩
      obtain ⟨node2, hnode2, hm⟩ :=
        (mem_process_game_iff_meta dir f rom_map fs aC aF aM "releasedate" v htag).mp hv
      rw [hnode] at hnode2
      obtain rfl : node = node2 := by injection hnode2
      rw [meta_mem_releasedate] at hm
      exact (releasedate_field_mem_iff _).mp ⟨v, hm⟩
    · rintro ⟨s, hrel, hl⟩
      obtain ⟨v, hv⟩ := (releasedate_field_mem_iff node.releaseDate).mpr ⟨s, hrel, hl⟩
      exact ⟨v, (mem_process_game_iff_meta dir f rom_map fs aC aF aM "releasedate" v htag).mpr
        ⟨node, hnode, (meta_mem_releasedate node v).mpr hv⟩⟩
  · intro s hrel hl
    have hs : s ≠ "" := by
      intro h
      subst h
      simp at hl
    have hv := releasedate_field_mem_val s hs hl
    rw [← hrel] at hv
    exact (mem_process_game_iff_meta dir f rom_map fs aC aF aM "releasedate" _ htag).mpr
      ⟨node, hnode, (meta_mem_releasedate node _).mpr hv⟩

/-- Witness for C5: the record `node_c5` yields
`19940318T000000` from `1994-03-18`. -/
theorem c5_releasedate_witness :
    ("releasedate", some "19940318T000000")
      ∈ process_game "/d" "Sonic CD.chd" (fun _ => some node_c5) fs_empty
          attempt_ok attempt_ok attempt_ok :=
  (c5_releasedate "/d" "Sonic CD.chd" (fun _ => some node_c5) fs_empty attempt_ok attempt_ok
      attempt_ok node_c5 rfl).2 "1994-03-18" rfl (by decide)

/-- C6 counterexample: a record whose `Notes` element is present but empty
(`text = None`) still yields a `desc` field — the source checks only
`desc is not None`, never the text — contradicting the claim that each of the
five fields (including description) is emitted only when the text is
non-empty. -/
theorem c6_counterexample_desc :
    ("desc", none) ∈ process_game "/d" "a.bin" (fun _ => some node_c6) fs_empty
        attempt_ok attempt_ok attempt_ok := by
  refine (mem_process_game_iff_meta "/d" "a.bin" (fun _ => some node_c6) fs_empty attempt_ok
    attempt_ok attempt_ok "desc" none (by simp)).mpr ⟨node_c6, rfl, ?_⟩
  exact (meta_mem_desc node_c6 none).mpr (desc_field_mem_val none)

/-- Generic form of the four looped metadata fields: presence iff the element
exists with non-empty text, and the text is copied verbatim. -/
theorem process_game_tag_spec (dir f : String) (rom_map : String → Option GameNode) (fs : FS)
    (aC aF aM : String → String → Except String Unit) (node : GameNode)
    (hnode : rom_map f = some node) (tag : String) (w : Option (Option String))
    (htag : tag = "desc" ∨ tag = "developer" ∨ tag = "publisher" ∨ tag = "genre" ∨
      tag = "maxplayers" ∨ tag = "releasedate")
    (hmeta : ∀ v, (((tag, v) ∈ meta_fields node) ↔ (tag, v) ∈ tag_field tag w)) :
    ((∃ v, (tag, v) ∈ process_game dir f rom_map fs aC aF aM) ↔
      ∃ s, w = some (some s) ∧ s ≠ "") ∧
    ∀ s, w = some (some s) → s ≠ "" →
      (tag, some s) ∈ process_game dir f rom_map fs aC aF aM := by
  constructor
  · constructor
    · rintro ⟨v, hv⟩
      obtain ⟨node2, hnode2, hm⟩ :=
        (mem_process_game_iff_meta dir f rom_map fs aC aF aM tag v htag).mp hv
      rw [hnode] at hnode2
      obtain rfl : node = node2 := by injection hnode2
      rw [hmeta] at hm
      exact (tag_field_mem_iff tag w).mp ⟨v, hm⟩
    · rintro ⟨s, hw, hs⟩
      subst hw
      exact ⟨some s, (mem_process_game_iff_meta dir f rom_map fs aC aF aM tag _ htag).mpr
        ⟨node, hnode, (hmeta _).mpr (tag_field_mem_val tag s hs)⟩⟩
  · intro s hw hs
    subst hw
    exact (mem_process_game_iff_meta dir f rom_map fs aC aF aM tag _ htag).mpr
      ⟨node, hnode, (hmeta _).mpr (tag_field_mem_val tag s hs)⟩

/-- C6 (amended): `developer`, `publisher`, `genre` and `maxplayers` are
copied verbatim iff present with non-empty text; the description (`desc`)
field however is emitted iff the `Notes` element is present — regardless of
whether its text is empty — with the (possibly empty) text copied verbatim. -/
theorem c6_amended_fields (dir f : String) (rom_map : String → Option GameNode) (fs : FS)
    (aC aF aM : String → String → Except String Unit) (node : GameNode)
    (hnode : rom_map f = some node) :
    ((∃ v, ("desc", v) ∈ process_game dir f rom_map fs aC aF aM) ↔ node.notes ≠ none) ∧
    (∀ t, node.notes = some t → ("desc", t) ∈ process_game dir f rom_map fs aC aF aM) ∧
    ((∃ v, ("developer", v) ∈ process_game dir f rom_map fs aC aF aM) ↔
      ∃ s, node.developer = some (some s) ∧ s ≠ "") ∧
    (∀ s, node.developer = some (some s) → s ≠ "" →
      ("developer", some s) ∈ process_game dir f rom_map fs aC aF aM) ∧
    ((∃ v, ("publisher", v) ∈ process_game dir f rom_map fs aC aF aM) ↔
      ∃ s, node.publisher = some (some s) ∧ s ≠ "") ∧
    (∀ s, node.publisher = some (some s) → s ≠ "" →
      ("publisher", some s) ∈ process_game dir f rom_map fs aC aF aM) ∧
    ((∃ v, ("genre", v) ∈ process_game dir f rom_map fs aC aF aM) ↔
      ∃ s, node.genre = some (some s) ∧ s ≠ "") ∧
    (∀ s, node.genre = some (some s) → s ≠ "" →
      ("genre", some s) ∈ process_game dir f rom_map fs aC aF aM) ∧
    ((∃ v, ("maxplayers", v) ∈ process_game dir f rom_map fs aC aF aM) ↔
      ∃ s, node.maxPlayers = some (some s) ∧ s ≠ "") ∧
    (∀ s, node.maxPlayers = some (some s) → s ≠ "" →
      ("maxplayers", some s) ∈ process_game dir f rom_map fs aC aF aM) := by
  have hdev := process_game_tag_spec dir f rom_map fs aC aF aM node hnode "developer"
    node.developer (by simp) (meta_mem_developer node)
  have hpub := process_game_tag_spec dir f rom_map fs aC aF aM node hnode "publisher"
    node.publisher (by simp) (meta_mem_publisher node)
  have hgen := process_game_tag_spec dir f rom_map fs aC aF aM node hnode "genre"
    node.genre (by simp) (meta_mem_genre node)
  have hmax := process_game_tag_spec dir f rom_map fs aC aF aM node hnode "maxplayers"
    node.maxPlayers (by simp) (meta_mem_maxplayers node)
  refine ⟨?_, ?_, hdev.1, hdev.2, hpub.1, hpub.2, hgen.1, hgen.2, hmax.1, hmax.2⟩
  · constructor
    · rintro ⟨v, hv⟩
      obtain ⟨node2, hnode2, hm⟩ :=
        (mem_process_game_iff_meta dir f rom_map fs aC aF aM "desc" v (by simp)).mp hv
      rw [hnode] at hnode2
      obtain rfl : node = node2 := by injection hnode2
      rw [meta_mem_desc] at hm
      exact (desc_field_mem_iff node.notes).mp ⟨v, hm⟩
    · intro hne
      obtain ⟨w, hw⟩ := (desc_field_mem_iff node.notes).mpr hne
      exact ⟨w, (mem_process_game_iff_meta dir f rom_map fs aC aF aM "desc" w (by simp)).mpr
        ⟨node, hnode, (meta_mem_desc node w).mpr hw⟩⟩
  · intro t ht
    have hv := desc_field_mem_val t
    rw [← ht] at hv
    exact (mem_process_game_iff_meta dir f rom_map fs aC aF aM "desc" t (by simp)).mpr
      ⟨node, hnode, (meta_mem_desc node t).mpr hv⟩

/-- Witness for the amended C6 at the concrete record `node_c6`. -/
theorem c6_amended_fields_witness :
    (∃ v, ("desc", v) ∈ process_game "/d" "a.bin" (fun _ => some node_c6) fs_empty
        attempt_ok attempt_ok attempt_ok) ↔ node_c6.notes ≠ none :=
  (c6_amended_fields "/d" "a.bin" (fun _ => some node_c6) fs_empty attempt_ok attempt_ok
      attempt_ok node_c6 rfl).1

/-- C7: a folder whose metadata XML fails to parse is skipped atomically —
nothing is written for it (`output = none`), only the XML error is logged —
and every sibling folder's result is exactly what it is on its own: one
folder's failure never aborts the others. -/
theorem c7_xml_error_skips_folder (l1 l2 : List FolderInput) (fo : FolderInput) (e : String)
    (he : fo.parse = Except.error e) :
    process_all (l1 ++ fo :: l2)
      = process_all l1
        ++ { output := none, log := ["  XML Error: " ++ e] } :: process_all l2 := by
  simp [process_all, process_directory, he]

/-- Witness for C7 on a concrete run of one unparsable folder. -/
theorem c7_xml_error_witness :
    process_all ([] ++ folder_bad :: [])
      = process_all []
        ++ { output := none, log := ["  XML Error: syntax error"] } :: process_all [] :=
  c7_xml_error_skips_folder [] [] folder_bad "syntax error" rfl

/-- C8: a ROM file with no matching metadata record yields exactly two output
fields — `path` equal to `"./"` plus the filename and `name` equal to the
filename without extension — and nothing else; the result is the same for
every filesystem and every image-writer oracle, so no artwork lookup or
processing can influence it. -/
theorem c8_minimal_entry (dir f : String) (rom_map : String → Option GameNode) (fs : FS)
    (aC aF aM : String → String → Except String Unit) (hnone : rom_map f = none) :
    process_game dir f rom_map fs aC aF aM
      = [("path", some ("./" ++ f)), ("name", some ((splitext f).1))] := by
  simp [process_game, hnone]

/-- Witness for C8 at the concrete unmatched ROM `Sonic.bin`. -/
theorem c8_minimal_entry_witness :
    process_game "/d" "Sonic.bin" (fun _ => none) fs_empty attempt_ok attempt_ok attempt_ok
      = [("path", some "./Sonic.bin"), ("name", some "Sonic")] := by
  rw [c8_minimal_entry "/d" "Sonic.bin" (fun _ => none) fs_empty attempt_ok attempt_ok
    attempt_ok rfl]
  decide

theorem sanitize_chars_eq_map (cs : List Char) :
    sanitize_chars cs = cs.map (fun c => if c ∈ lb_bad_chars then '_' else c) := by
  induction cs with
  | nil => rfl
  | cons c cs ih => simp [sanitize_chars, ih]

/-- C9: for a matched record the output `name` is the `Title` element's text,
falling back to the ROM base filename when the element is absent; and that
same resolved title — sanitized by replacing each character of
`lb_bad_chars` (`< > : " / \ | ? * ' backtick`) with an underscore — is the
key of all three artwork lookups: two filesystems whose `find_image` agrees at
that sanitized title and ROM base produce identical entries. -/
theorem c9_title_and_lookup (dir f : String) (rom_map : String → Option GameNode) (fs : FS)
    (aC aF aM : String → String → Except String Unit) (node : GameNode)
    (hnode : rom_map f = some node) :
    (∃ rest, process_game dir f rom_map fs aC aF aM
      = ("path", some ("./" ++ f))
        :: ("name", resolved_title node.title ((splitext f).1)) :: rest) ∧
    (∀ fs2 : FS,
      (∀ tf : String,
        find_image fs2 dir tf (sanitize_lb_title (resolved_title node.title ((splitext f).1)))
            ((splitext f).1)
          = find_image fs dir tf
              (sanitize_lb_title (resolved_title node.title ((splitext f).1)))
              ((splitext f).1)) →
      process_game dir f rom_map fs2 aC aF aM = process_game dir f rom_map fs aC aF aM) ∧
    (∀ s : String, (sanitize_lb_title (some s)).data
      = s.data.map (fun c => if c ∈ lb_bad_chars then '_' else c)) := by
  refine ⟨?_, ?_, ?_⟩
  · refine ⟨meta_fields node ++ art_fields dir ((splitext f).1) ((splitext f).1)
      (sanitize_lb_title (resolved_title node.title ((splitext f).1))) fs aC aF aM, ?_⟩
    simp [process_game, hnode]
  · intro fs2 hfi
    simp only [process_game, hnode, art_fields]
    rw [hfi "Front", hfi "Screenshot", hfi "Clear Logo"]
  · intro s
    by_cases hs : s = ""
    · subst hs
      simp [sanitize_lb_title]
    · simp [sanitize_lb_title, hs, sanitize_chars_eq_map]

/-- Witness for C9: the record `node_c5` has a `Title`; its text becomes the
entry's `name`. -/
theorem c9_title_witness :
    ∃ rest, process_game "/d" "Sonic CD.chd" (fun _ => some node_c5) fs_empty
        attempt_ok attempt_ok attempt_ok
      = ("path", some "./Sonic CD.chd") :: ("name", some "Sonic CD") :: rest :=
  (c9_title_and_lookup "/d" "Sonic CD.chd" (fun _ => some node_c5) fs_empty attempt_ok
      attempt_ok attempt_ok node_c5 rfl).1

theorem rom_map_foldl_lookup (games : List GameNode) (m : String → Option GameNode)
    (k : String) :
    List.foldl rom_map_step m games k
      = (games.reverse.find? (fun g => rom_key g == some k)).elim (m k) some := by
  induction games generalizing m with
  | nil => rfl
  | cons g gs ih =>
    rw [List.foldl_cons, ih, List.reverse_cons, List.find?_append]
    cases hf : gs.reverse.find? (fun g => rom_key g == some k) with
    | some g2 => rfl
    | none =>
      cases hk : rom_key g with
      | none =>
        have hp : (rom_key g == some k) = false := by simp [hk]
        simp [rom_map_step, hk, List.find?, hp, Option.elim]
      | some key =>
        by_cases hkey : k = key
        · subst hkey
          have hp : (rom_key g == some k) = true := by simp [hk]
          simp [rom_map_step, hk, List.find?, hp, Option.elim]
        · have hbk : (key == k) = false := by
            rw [beq_eq_false_iff_ne]
            exact fun h => hkey h.symm
          simp [rom_map_step, hk, List.find?, Option.elim, hkey, hbk]

/-- C10: a `Game` element whose `ApplicationPath` is absent, textless or empty
is never entered into `rom_map`, so no lookup can return it; and the lookup
returns the LAST element in document order whose `ApplicationPath` basename
equals the key — later entries overwrite earlier ones (equivalently, `find?`
over the reversed document order). -/
theorem c10_rom_map_last_wins (games : List GameNode) (k : String) :
    build_rom_map games k = games.reverse.find? (fun g => rom_key g == some k) ∧
    ∀ g, build_rom_map games k = some g →
      ∃ s, g.applicationPath = some (some s) ∧ s ≠ "" ∧ basename s = k := by
  have h1 : build_rom_map games k
      = games.reverse.find? (fun g => rom_key g == some k) := by
    rw [build_rom_map, rom_map_foldl_lookup]
    cases games.reverse.find? (fun g => rom_key g == some k) <;> rfl
  refine ⟨h1, ?_⟩
  intro g hg
  rw [h1] at hg
  have hp := List.find?_some hg
  have hk : rom_key g = some k := by simpa using hp
  unfold rom_key at hk
  rcases hap : g.applicationPath with _ | (_ | s)
  · rw [hap] at hk
    simp at hk
  · rw [hap] at hk
    simp at hk
  · rw [hap] at hk
    by_cases hs : s = ""
    · simp [hs] at hk
    · simp only [hs, if_false] at hk
      refine ⟨s, rfl, hs, ?_⟩
      injection hk

/-- Witness for C10: with two records sharing the basename, the lookup
returns the second (last in document order). -/
theorem c10_rom_map_last_wins_witness :
    build_rom_map [g_dup1, g_dup2] "Sonic.bin" = some g_dup2 ∧
    ∃ s, g_dup2.applicationPath = some (some s) ∧ s ≠ "" ∧ basename s = "Sonic.bin" := by
  have h := c10_rom_map_last_wins [g_dup1, g_dup2] "Sonic.bin"
  have h1 : build_rom_map [g_dup1, g_dup2] "Sonic.bin" = some g_dup2 := by
    rw [h.1]
    decide
  exact ⟨h1, h.2 g_dup2 h1⟩

end TamScraper
